import Mathlib

/-!
Shallow embedding of the Libra CSV price-enrichment pipeline
(`backend/lambda/process-csv/src/index.ts`) and proofs about it.

Conventions of the embedding:
* JavaScript numbers are modelled as rationals (`ℚ`); `NaN`/`undefined`
  are modelled with `Option`.
* JavaScript truthiness: a number is falsy iff it is `0` (or `NaN`,
  i.e. `none`); a string is falsy iff it is empty.
* External effects (DynamoDB cache reads, the bulk HTTP fetch, ledger
  writes, job-status writes, a row-processing throw) are modelled by
  explicit oracles passed to the functions that perform them.
-/

namespace Libra

/-- One parsed CSV record (`CSVRow` in the source).  Only the fields the
pipeline inspects are modelled; all other columns pass through unchanged
and are irrelevant to the properties proved here. -/
structure CSVRow where
  isbn : Option String
  basePrice : Option String
deriving DecidableEq

/-- A row after processing (`ProcessedRow` in the source): the original
row plus the three fields the transformer adds. -/
structure ProcessedRow where
  row : CSVRow
  calculatedPrice : String
  priceSource : String
  processingStatus : String
deriving DecidableEq

/-- User-selected options (`ProcessingSettings` in `infrastructure/types`):
`priceRounding : boolean`, `priceAdjustment?: number`. -/
structure ProcessingSettings where
  priceRounding : Bool
  priceAdjustment : Option ℚ
deriving DecidableEq

/-- JavaScript truthiness of a possibly-absent number: `undefined`/`NaN`
and `0` are falsy. -/
def numTruthy : Option ℚ → Bool
  | none => false
  | some v => v != 0

/-- JavaScript truthiness of a possibly-absent string: `undefined` and
the empty string are falsy. -/
def strTruthy : Option String → Bool
  | none => false
  | some s => !s.isEmpty

/-- The source's `isbn.replace(/[-\s]/g, '')`: strip hyphens and
whitespace. -/
def normalizeIsbn (s : String) : String :=
  String.mk (s.data.filter (fun c => !(c == '-' || c.isWhitespace)))

/-- Numeric value of a decimal digit character. -/
def digitVal (c : Char) : ℕ := c.toNat - 48

/-- Value of a list of decimal digit characters, most significant first. -/
def digitsToNat (ds : List Char) : ℕ :=
  ds.foldl (fun acc c => acc * 10 + digitVal c) 0

/-- Structural part of JavaScript `parseFloat` on plain decimal
numerals: skip leading whitespace, an optional sign, then digits with an
optional fractional part.  Returns `(negative, mantissa, fracLen)` so
that the parsed value is `±mantissa / 10^fracLen`; `none` models `NaN`
(no parsable numeric prefix).  Exponent notation, which no caller of the
pipeline produces, is not modelled. -/
def parseFloatParts (s : String) : Option (Bool × ℕ × ℕ) :=
  let cs := s.data.dropWhile Char.isWhitespace
  let neg : Bool := match cs with
    | '-' :: _ => true
    | _ => false
  let cs2 := match cs with
    | '-' :: rest => rest
    | '+' :: rest => rest
    | _ => cs
  let intPart := cs2.takeWhile Char.isDigit
  let rest := cs2.dropWhile Char.isDigit
  match rest with
  | '.' :: rest2 =>
    let fracPart := rest2.takeWhile Char.isDigit
    if intPart.isEmpty && fracPart.isEmpty then none
    else some (neg, digitsToNat (intPart ++ fracPart), fracPart.length)
  | _ =>
    if intPart.isEmpty then none
    else some (neg, digitsToNat intPart, 0)

/-- Rational value of a `parseFloatParts` result. -/
def ratOfParts (p : Bool × ℕ × ℕ) : ℚ :=
  (if p.1 then -1 else 1) * (p.2.1 : ℚ) / (10 : ℚ) ^ p.2.2

/-- Model of JavaScript `parseFloat` (see `parseFloatParts`). -/
def parseFloatQ (s : String) : Option ℚ :=
  (parseFloatParts s).map ratOfParts

/-- Decimal digit character for `n % 10`. -/
def digitChar (n : ℕ) : Char := Char.ofNat (48 + n % 10)

/-- Decimal digit characters of `n`, most significant first, with
explicit fuel so the kernel can evaluate it. -/
def natDigitsAux : ℕ → ℕ → List Char
  | 0, _ => []
  | fuel + 1, n =>
    if n < 10 then [digitChar n]
    else natDigitsAux fuel (n / 10) ++ [digitChar (n % 10)]

/-- Decimal digit characters of a natural number, most significant
first. -/
def natDigits (n : ℕ) : List Char := natDigitsAux (n + 1) n

/-- Rendering of a non-negative rational with exactly two decimal
places, rounding half away from zero, as `Number.prototype.toFixed(2)`
does for non-negative values. -/
def toFixed2Abs (q : ℚ) : String :=
  let n : ℕ := (⌊q * 100 + 1/2⌋).toNat
  String.mk (natDigits (n / 100)) ++ "." ++
    String.mk [digitChar (n / 10 % 10), digitChar (n % 10)]

/-- Model of JavaScript `x.toFixed(2)`: negative values are rendered as
a minus sign followed by the rendering of the absolute value. -/
def toFixed2 (q : ℚ) : String :=
  if q < 0 then "-" ++ toFixed2Abs (-q) else toFixed2Abs q

/-- The transient ISBN → price map built by the resolver; JavaScript
`Map.get` is first-match lookup and `Map.set` is modelled by prepending
(the pipeline only inserts distinct keys). -/
abbrev PriceMap := List (String × ℚ)

/-- The source's `processRow`: derive `calculatedPrice`, `priceSource`
and `processingStatus` for one row from the settings and the price map.
The source's `priceSource` literals are `'original'` and
`'isbndb_bulk'`. -/
def processRow (row : CSVRow) (settings : ProcessingSettings)
    (priceMap : PriceMap) : ProcessedRow :=
  let isbn := row.isbn.map normalizeIsbn
  match isbn with
  | none =>
    { row := row, calculatedPrice := row.basePrice.getD "",
      priceSource := "original", processingStatus := "no_isbn" }
  | some s =>
    if s.isEmpty then
      { row := row, calculatedPrice := row.basePrice.getD "",
        priceSource := "original", processingStatus := "no_isbn" }
    else
      let price0 := priceMap.lookup s
      let priceSource := if numTruthy price0 then "isbndb_bulk" else "original"
      -- `if (!price && row.basePrice) price = parseFloat(row.basePrice)`
      -- (the accompanying `priceSource = 'original'` is a no-op: it is
      -- already `'original'` on this branch)
      let price1 := if !numTruthy price0 && strTruthy row.basePrice then
          parseFloatQ (row.basePrice.getD "")
        else price0
      if !numTruthy price1 then
        { row := row, calculatedPrice := row.basePrice.getD "",
          priceSource := "original", processingStatus := "no_price_found" }
      else
        let p0 := price1.getD 0
        -- `if (settings.priceAdjustment) finalPrice += settings.priceAdjustment`
        let p1 := match settings.priceAdjustment with
          | some a => if a != 0 then p0 + a else p0
          | none => p0
        let p2 := if settings.priceRounding then ((⌈p1⌉ : ℤ) : ℚ) else p1
        { row := row, calculatedPrice := toFixed2 p2,
          priceSource := priceSource, processingStatus := "success" }

/-- Constants from the source: `DAILY_LIMIT = 5000`, `BULK_SIZE = 100`,
`RATE_LIMIT_DELAY = 1100`. -/
def DAILY_LIMIT : ℕ := 5000

/-- Maximum bulk size per provider call. -/
def BULK_SIZE : ℕ := 100

/-- Fixed inter-batch pacing delay in milliseconds. -/
def RATE_LIMIT_DELAY : ℕ := 1100

/-- One record of the provider's bulk response (`ISBNdbBulkResponse`
element).  Absent string fields are modelled as `""` (falsy),
`msrp?: string` as an `Option`. -/
structure Book where
  isbn : String
  isbn13 : String
  msrp : Option String
deriving DecidableEq

/-- Outcome of one bulk HTTP call, as classified by
`fetchBulkDataFromISBNdb`: a 2xx body, a 404, a 429, or any other
failing status (a network-level rejection behaves like the last). -/
inductive FetchResult where
  | ok (books : List Book)
  | notFound
  | rateLimited
  | httpError (status : ℕ)
deriving DecidableEq

/-- Externally visible actions of the resolver, in order: bulk HTTP
requests and `setTimeout` delays (milliseconds). -/
inductive Event where
  | request (isbns : List String)
  | delay (ms : ℕ)
deriving DecidableEq

/-- The source's `extractPriceFromBook`: take `msrp` if truthy, strip
every character that is not a digit or a dot, `parseFloat` the result,
and keep it only if it is a number strictly greater than zero. -/
def extractPriceFromBook (b : Book) : Option ℚ :=
  match b.msrp with
  | none => none
  | some m =>
    if m.isEmpty then none
    else
      match parseFloatQ (String.mk (m.data.filter (fun c => c.isDigit || c == '.'))) with
      | some p => if 0 < p then some p else none
      | none => none

/-- The 2-second backoff `fetchBulkDataFromISBNdb` sleeps before
rethrowing when the provider answers 429; no other outcome delays. -/
def backoffEvents : FetchResult → List Event
  | FetchResult.rateLimited => [Event.delay 2000]
  | _ => []

/-- Events produced by one `fetchBulkDataFromISBNdb` call: the HTTP
request itself, plus the 429 backoff when it applies. -/
def fetchEvents (batch : List String) (r : FetchResult) : List Event :=
  Event.request batch :: backoffEvents r

/-- Result of one `fetchBulkDataFromISBNdb` call: a 404 yields an empty
successful response; a 429 or any other failing status throws (`none`). -/
def fetchBooks : FetchResult → Option (List Book)
  | FetchResult.ok books => some books
  | FetchResult.notFound => some []
  | FetchResult.rateLimited => none
  | FetchResult.httpError _ => none

/-- The per-book loop inside `buildPriceMap`: for every returned book,
key `book.isbn13 || book.isbn`, keep it when both the extracted price
and the key are truthy, inserting under the normalized key. -/
def addBooks (books : List Book) (pm : PriceMap) : PriceMap :=
  books.foldl (fun pm b =>
    let isbn := if b.isbn13.isEmpty then b.isbn else b.isbn13
    match extractPriceFromBook b with
    | some p => if isbn.isEmpty then pm else (normalizeIsbn isbn, p) :: pm
    | none => pm) pm

/-- The cache-probe phase of `buildPriceMap`: for each ISBN in order,
a truthy cached price goes into the price map, otherwise the ISBN is
collected as a miss (order preserved).  `cache` models
`getPriceFromCache`, which returns `null` on expiry or store errors. -/
def cacheProbe (cache : String → Option ℚ) : List String → PriceMap × List String
  | [] => ([], [])
  | isbn :: rest =>
    let hm := cacheProbe cache rest
    match cache isbn with
    | some p => if p != 0 then ((isbn, p) :: hm.1, hm.2) else (hm.1, isbn :: hm.2)
    | none => (hm.1, isbn :: hm.2)

/-- The batch-partition loop of `buildPriceMap`: slices of `BULK_SIZE`. -/
def chunksOf (l : List String) : List (List String) :=
  if l.isEmpty then [] else l.take BULK_SIZE :: chunksOf (l.drop BULK_SIZE)
termination_by l.length
decreasing_by
  have hl : l ≠ [] := by simpa using (by assumption : ¬ l.isEmpty = true)
  have : 0 < l.length := List.length_pos.mpr hl
  simp only [List.length_drop, BULK_SIZE]
  omega

/-- State threaded through the batch loop of `buildPriceMap`. -/
structure ResolveState where
  priceMap : PriceMap
  increments : ℕ
  trace : List Event
deriving DecidableEq

/-- The batch loop of `buildPriceMap` (source lines 203-237): fetch the
batch; on success increment the daily ledger (`incrementDailyUsage`
swallows ledger-store failures, modelled by the `ledgerOk` oracle),
absorb the books, and sleep `RATE_LIMIT_DELAY` unless this was the last
batch; on a thrown fetch, log and `continue` with the next batch. -/
def runBatches (oracle : ℕ → FetchResult) (ledgerOk : ℕ → Bool) :
    ℕ → List (List String) → ResolveState → ResolveState
  | _, [], st => st
  | i, batch :: rest, st =>
    let evs := fetchEvents batch (oracle i)
    match fetchBooks (oracle i) with
    | some books =>
      let inc := if ledgerOk i then 1 else 0
      let pm := addBooks books st.priceMap
      let pacing : List Event := if rest.isEmpty then [] else [Event.delay RATE_LIMIT_DELAY]
      runBatches oracle ledgerOk (i + 1) rest
        { priceMap := pm, increments := st.increments + inc,
          trace := st.trace ++ evs ++ pacing }
    | none =>
      runBatches oracle ledgerOk (i + 1) rest { st with trace := st.trace ++ evs }

/-- The source's `buildPriceMap`: probe the cache for every ISBN, then
resolve the misses through the bulk API in batches of `BULK_SIZE`.
`oracle i` is the provider's answer to the `i`-th batch call and
`ledgerOk i` tells whether the `i`-th ledger write succeeds. -/
def buildPriceMap (isbns : List String) (cache : String → Option ℚ)
    (oracle : ℕ → FetchResult) (ledgerOk : ℕ → Bool) : ResolveState :=
  let hm := cacheProbe cache isbns
  if hm.2.isEmpty then { priceMap := hm.1, increments := 0, trace := [] }
  else runBatches oracle ledgerOk 0 (chunksOf hm.2)
    { priceMap := hm.1, increments := 0, trace := [] }

/-- Number of HTTP requests in a trace. -/
def countRequests (tr : List Event) : ℕ :=
  (tr.filter (fun e => match e with
    | Event.request _ => true
    | Event.delay _ => false)).length

/-- Job lifecycle states (`JobStatus` in `infrastructure/types`). -/
inductive JobStatus where
  | PENDING
  | PROCESSING
  | COMPLETED
  | FAILED
deriving DecidableEq

/-- One write to the job-status store: the status plus the optional
partial fields `updateJobStatus` accepts. -/
structure StatusUpdate where
  status : JobStatus
  totalRows : Option ℕ := none
  processedRows : Option ℕ := none
  errorCount : Option ℕ := none
  outputFileKey : Option String := none
  errorMessage : Option String := none
deriving DecidableEq

/-- The source's `updateJobStatus`: attempt a write to the job-status
store; a store failure is caught and ignored, so the pipeline observes
nothing.  State is the list of writes that actually landed plus a
counter of attempts; `statusOk n` tells whether the `n`-th attempted
write succeeds. -/
def updateJobStatus (statusOk : ℕ → Bool) (st : List StatusUpdate × ℕ)
    (u : StatusUpdate) : List StatusUpdate × ℕ :=
  (if statusOk st.2 then st.1 ++ [u] else st.1, st.2 + 1)

/-- First-occurrence deduplication with an accumulator of already-seen
keys. -/
def dedupFirstAux (seen : List String) : List String → List String
  | [] => []
  | x :: xs =>
    if seen.contains x then dedupFirstAux seen xs
    else x :: dedupFirstAux (x :: seen) xs

/-- First-occurrence deduplication, as `[...new Set(xs)]` preserves
insertion order. -/
def dedupFirst (l : List String) : List String := dedupFirstAux [] l

/-- The controller's ISBN extraction: normalize each row's ISBN, keep
the truthy ones of length at least 10, and deduplicate. -/
def uniqueIsbnsOf (rows : List CSVRow) : List String :=
  dedupFirst (((rows.filterMap (fun r => r.isbn.map normalizeIsbn)).filter
    (fun s => !s.isEmpty && decide (10 ≤ s.length))))

/-- The source's `Math.ceil(n / BULK_SIZE)` on a row count. -/
def ceilDiv100 (n : ℕ) : ℕ := (n + (BULK_SIZE - 1)) / BULK_SIZE

/-- The fatal error the model can raise (the quota admission check;
the source message is `Daily API limit would be exceeded. ...`). -/
inductive JobError where
  | quotaExceeded (usage estimated : ℕ)
deriving DecidableEq

/-- The fallback row pushed when `processRow` throws for a row:
`processingStatus: 'error'`, `calculatedPrice: row.basePrice || ''`,
`priceSource: 'original'`. -/
def errorFallbackRow (row : CSVRow) : ProcessedRow :=
  { row := row, calculatedPrice := row.basePrice.getD "",
    priceSource := "original", processingStatus := "error" }

/-- State threaded through the controller's per-row loop. -/
structure RowLoopState where
  rowsOut : List ProcessedRow
  processedCount : ℕ
  errorCount : ℕ
  statusSt : List StatusUpdate × ℕ

/-- The controller's per-row loop (source lines 132-155): each row is
transformed by `processRow`; a throw (oracle `rowFail` on the row's
position) is caught, counted, and replaced by the fallback row; every
50 successfully processed rows a progress write is attempted. -/
def rowLoop (settings : ProcessingSettings) (priceMap : PriceMap)
    (statusOk : ℕ → Bool) (rowFail : ℕ → Bool) :
    ℕ → List CSVRow → RowLoopState → RowLoopState
  | _, [], st => st
  | i, row :: rest, st =>
    if rowFail i then
      rowLoop settings priceMap statusOk rowFail (i + 1) rest
        { st with rowsOut := st.rowsOut ++ [errorFallbackRow row],
                  errorCount := st.errorCount + 1 }
    else
      let pr := processRow row settings priceMap
      let pc := st.processedCount + 1
      let st2 := if pc % 50 == 0 then
          updateJobStatus statusOk st.statusSt
            { status := JobStatus.PROCESSING, processedRows := some pc,
              errorCount := some st.errorCount }
        else st.statusSt
      rowLoop settings priceMap statusOk rowFail (i + 1) rest
        { rowsOut := st.rowsOut ++ [pr], processedCount := pc,
          errorCount := st.errorCount, statusSt := st2 }

/-- Everything one invocation of the pipeline produces. -/
structure JobRun where
  outcome : Except JobError (List ProcessedRow)
  increments : ℕ
  trace : List Event
  statusLog : List StatusUpdate

/-- The source's `processFile`, from the point where the rows are
parsed: extract and deduplicate ISBNs, run the quota admission check,
build the price map, stream the rows through `processRow`, and report
status along the way.  Download, parse, serialization and upload are
byte-level I/O outside this model; the output object key is abstracted
to a constant. -/
def processFile (rows : List CSVRow) (settings : ProcessingSettings)
    (cache : String → Option ℚ) (oracle : ℕ → FetchResult)
    (ledgerOk : ℕ → Bool) (rowFail : ℕ → Bool) (statusOk : ℕ → Bool)
    (usage : ℕ) : JobRun :=
  let s0 := updateJobStatus statusOk ([], 0) { status := JobStatus.PROCESSING }
  let uniqueIsbns := uniqueIsbnsOf rows
  let s1 := updateJobStatus statusOk s0
    { status := JobStatus.PROCESSING, totalRows := some rows.length }
  let estimatedCalls := ceilDiv100 uniqueIsbns.length
  if DAILY_LIMIT < usage + estimatedCalls then
    { outcome := Except.error (JobError.quotaExceeded usage estimatedCalls),
      increments := 0, trace := [], statusLog := s1.1 }
  else
    let rs := buildPriceMap uniqueIsbns cache oracle ledgerOk
    let fin := rowLoop settings rs.priceMap statusOk rowFail 0 rows
      { rowsOut := [], processedCount := 0, errorCount := 0, statusSt := s1 }
    let s2 := updateJobStatus statusOk fin.statusSt
      { status := JobStatus.COMPLETED, processedRows := some fin.processedCount,
        errorCount := some fin.errorCount, outputFileKey := some "outputKey" }
    { outcome := Except.ok fin.rowsOut, increments := rs.increments,
      trace := rs.trace, statusLog := s2.1 }

/-- Modelled from the spec (section 4.4 step 1): the list of cache
misses — the ISBNs the cache probe does not resolve.  Used to state
claims whose spec text is phrased in terms of misses. -/
def specCacheMisses (cache : String → Option ℚ) (isbns : List String) : List String :=
  (cacheProbe cache isbns).2

/-- The spec's pricing formula (sections 4.5 and 8): candidate price
plus the adjustment when present, then rounded strictly upward to the
next whole unit exactly when `priceRounding` is set. -/
def specAdjustedPrice (settings : ProcessingSettings) (p : ℚ) : ℚ :=
  if settings.priceRounding then ((⌈p + settings.priceAdjustment.getD 0⌉ : ℤ) : ℚ)
  else p + settings.priceAdjustment.getD 0

/-- A string has two-decimal format when it is some dot-free prefix
followed by a dot and exactly two digit characters. -/
def twoDecimalFormat (s : String) : Prop :=
  ∃ t c₁ c₂, s = t ++ "." ++ String.mk [c₁, c₂] ∧
    c₁.isDigit = true ∧ c₂.isDigit = true ∧ '.' ∉ t.data

/-- A row with a hyphen-and-space ISBN and a parsable base price. -/
def sampleRow : CSVRow := { isbn := some "11-1111 1111", basePrice := some "10.00" }

/-- The spec's section-8 scenario settings: adjustment −5.00 with
rounding on. -/
def scenarioSettings : ProcessingSettings :=
  { priceRounding := true, priceAdjustment := some (-5) }

/-- A price map resolving the sample row's ISBN to 22.30. -/
def scenarioMap : PriceMap := [("1111111111", 223/10)]

/-- A placeholder row, used as a `getD` default. -/
def dummyRow : CSVRow := { isbn := none, basePrice := none }

/-- A placeholder processed row, used as a `getD` default. -/
def dummyProcessed : ProcessedRow := errorFallbackRow dummyRow

/-- The pure sequence of rows the controller's loop emits: position `k`
is the fallback row when `processRow` throws there, and the transformed
row otherwise. -/
def rowOutputs (settings : ProcessingSettings) (pm : PriceMap)
    (rowFail : ℕ → Bool) : ℕ → List CSVRow → List ProcessedRow
  | _, [] => []
  | i, row :: rest =>
    (if rowFail i then errorFallbackRow row else processRow row settings pm) ::
      rowOutputs settings pm rowFail (i + 1) rest

/-- An always-missing cache. -/
def cacheNone : String → Option ℚ := fun _ => none

/-- A provider that always answers with an empty 2xx body. -/
def oracleOkEmpty : ℕ → FetchResult := fun _ => FetchResult.ok []

/-- An oracle that always succeeds. -/
def allTrue : ℕ → Bool := fun _ => true

/-- An oracle that always fails. -/
def allFalse : ℕ → Bool := fun _ => false

/-- The events the batch loop emits from batch `i` onward: per batch,
the request, the 429 backoff when it applies, and the pacing delay
after a successful batch that is not the last. -/
def batchTrace (oracle : ℕ → FetchResult) : ℕ → List (List String) → List Event
  | _, [] => []
  | i, b :: rest =>
    fetchEvents b (oracle i) ++
      (match fetchBooks (oracle i) with
       | some _ => if rest.isEmpty then [] else [Event.delay RATE_LIMIT_DELAY]
       | none => []) ++ batchTrace oracle (i + 1) rest

/-- Number of batch calls from `i` onward that complete successfully. -/
def countSuccessfulCalls (oracle : ℕ → FetchResult) : ℕ → List (List String) → ℕ
  | _, [] => 0
  | i, _ :: rest =>
    (if (fetchBooks (oracle i)).isSome then 1 else 0) +
      countSuccessfulCalls oracle (i + 1) rest

/-- Number of ledger increments the batch loop lands from `i` onward:
one per successful batch whose ledger write succeeds. -/
def countLedgerIncs (oracle : ℕ → FetchResult) (ledgerOk : ℕ → Bool) :
    ℕ → List (List String) → ℕ
  | _, [] => 0
  | i, _ :: rest =>
    (match fetchBooks (oracle i) with
     | some _ => if ledgerOk i then 1 else 0
     | none => 0) + countLedgerIncs oracle ledgerOk (i + 1) rest

/-- Whether an event is an HTTP request. -/
def isRequest : Event → Bool
  | Event.request _ => true
  | Event.delay _ => false

/-- Worker for `gaps`: `g` reverse-accumulates the non-request events
seen since the most recent request. -/
def gapsAux : List Event → Option (List Event) → List (List Event)
  | [], none => []
  | [], some g => [g.reverse]
  | e :: rest, none =>
    if isRequest e then gapsAux rest (some []) else gapsAux rest none
  | e :: rest, some g =>
    if isRequest e then g.reverse :: gapsAux rest (some [])
    else gapsAux rest (some (e :: g))

/-- Split a trace at its requests: entry `i` holds the events strictly
between request `i` and request `i + 1`, and the last entry the events
after the last request. -/
def gaps (tr : List Event) : List (List Event) := gapsAux tr none

/-- The expected inter-request gap after each batch of the loop: the
429 backoff when it applies, then the pacing delay after a successful
non-final batch. -/
def gapList (oracle : ℕ → FetchResult) : ℕ → List (List String) → List (List Event)
  | _, [] => []
  | i, b :: rest =>
    (backoffEvents (oracle i) ++
      (match fetchBooks (oracle i) with
       | some _ => if rest.isEmpty then [] else [Event.delay RATE_LIMIT_DELAY]
       | none => [])) :: gapList oracle (i + 1) rest

/-- A row with a plain ten-digit ISBN and base price "10". -/
def oneRow : CSVRow := { isbn := some "1111111111", basePrice := some "10" }

/-- Settings with no adjustment and no rounding. -/
def plainSettings : ProcessingSettings :=
  { priceRounding := false, priceAdjustment := none }

/-- A cache holding a price for the one ISBN used by the fixtures. -/
def cacheHit : String → Option ℚ :=
  fun s => if s = "1111111111" then some 5 else none

/-- A provider that always answers HTTP 401. -/
def oracle401 : ℕ → FetchResult := fun _ => FetchResult.httpError 401

/-- A provider that always answers HTTP 500. -/
def oracle500 : ℕ → FetchResult := fun _ => FetchResult.httpError 500

/-- A provider whose first batch fails with HTTP 500 and whose later
batches succeed with empty bodies. -/
def failFirstOracle : ℕ → FetchResult :=
  fun i => if i = 0 then FetchResult.httpError 500 else FetchResult.ok []

/-! Theorems. -/

/-- Floor of a concrete non-negative rational, via bounds dischargeable
by `norm_num`. -/
theorem floor_eq_nat (q : ℚ) (m : ℕ) (h1 : (m : ℚ) ≤ q) (h2 : q < m + 1) :
    ⌊q⌋ = (m : ℤ) := by
  rw [Int.floor_eq_iff]
  constructor
  · exact_mod_cast h1
  · exact_mod_cast h2

/-- Ceiling of a concrete rational, via bounds dischargeable by
`norm_num`. -/
theorem ceil_eq_int (q : ℚ) (m : ℤ) (h1 : (m : ℚ) - 1 < q) (h2 : q ≤ m) :
    ⌈q⌉ = m := by
  rw [Int.ceil_eq_iff]
  exact ⟨h1, h2⟩

/-- Evaluation of `toFixed2` on a concrete non-negative rational whose
scaled-and-rounded value is `m` hundredths. -/
theorem toFixed2_eval (q : ℚ) (m : ℕ) (h0 : ¬ q < 0)
    (h : ⌊q * 100 + 1/2⌋ = (m : ℤ)) :
    toFixed2 q = String.mk (natDigits (m / 100)) ++ "." ++
      String.mk [digitChar (m / 10 % 10), digitChar (m % 10)] := by
  rw [toFixed2, if_neg h0, toFixed2Abs, h]
  simp

/-- Evaluation of `toFixed2` on a concrete negative rational. -/
theorem toFixed2_eval_neg (q : ℚ) (m : ℕ) (h0 : q < 0)
    (h : ⌊(-q) * 100 + 1/2⌋ = (m : ℤ)) :
    toFixed2 q = "-" ++ String.mk (natDigits (m / 100)) ++ "." ++
      String.mk [digitChar (m / 10 % 10), digitChar (m % 10)] := by
  rw [toFixed2, if_pos h0, toFixed2Abs, h]
  simp [String.append_assoc]

/-- Truthiness of a present number. -/
theorem numTruthy_some (v : ℚ) : numTruthy (some v) = (v != 0) := rfl

/-- Truthiness of an absent number. -/
theorem numTruthy_none : numTruthy none = false := rfl

/-- Truthiness of a present string. -/
theorem strTruthy_some (s : String) : strTruthy (some s) = !s.isEmpty := rfl

/-- On a truthy price-map hit, `processRow` succeeds with the mapped
price run through the settings and provenance `'isbndb_bulk'`. -/
theorem processRow_map_hit (row : CSVRow) (settings : ProcessingSettings)
    (m : PriceMap) (s0 : String) (v : ℚ)
    (hs : row.isbn = some s0) (hne : (normalizeIsbn s0).isEmpty = false)
    (hv : m.lookup (normalizeIsbn s0) = some v) (hv0 : v ≠ 0) :
    processRow row settings m =
      { row := row, calculatedPrice := toFixed2 (specAdjustedPrice settings v),
        priceSource := "isbndb_bulk", processingStatus := "success" } := by
  obtain ⟨pr, adj⟩ := settings
  have hvb : (v != 0) = true := by simpa using hv0
  cases adj with
  | none =>
    simp [processRow, hs, hne, hv, numTruthy_some, hvb, specAdjustedPrice]
  | some a =>
    by_cases ha : a = 0
    · subst ha
      simp [processRow, hs, hne, hv, numTruthy_some, hvb, specAdjustedPrice]
    · have hab : (a != 0) = true := by simpa using ha
      simp [processRow, hs, hne, hv, numTruthy_some, hvb, hab, specAdjustedPrice]

/-- On a price-map miss (absent or zero entry) with a parsable truthy
base price, `processRow` succeeds with the parsed base price run
through the settings and provenance `'original'`. -/
theorem processRow_fallback (row : CSVRow) (settings : ProcessingSettings)
    (m : PriceMap) (s0 b : String) (p : ℚ)
    (hs : row.isbn = some s0) (hne : (normalizeIsbn s0).isEmpty = false)
    (hmiss : numTruthy (m.lookup (normalizeIsbn s0)) = false)
    (hb : row.basePrice = some b)
    (hparse : parseFloatQ b = some p) (hp0 : p ≠ 0) :
    processRow row settings m =
      { row := row, calculatedPrice := toFixed2 (specAdjustedPrice settings p),
        priceSource := "original", processingStatus := "success" } := by
  obtain ⟨pr, adj⟩ := settings
  have hbne : b.isEmpty = false := by
    by_contra h
    have hbe : b = "" := (String.isEmpty_iff b).mp (by simpa using h)
    rw [hbe] at hparse
    have hnone : parseFloatQ "" = none := by decide
    rw [hnone] at hparse
    exact Option.noConfusion hparse
  have hpb : (p != 0) = true := by simpa using hp0
  cases adj with
  | none =>
    simp [processRow, hs, hne, hmiss, hb, strTruthy_some, hbne, hparse,
      numTruthy_some, hpb, specAdjustedPrice]
  | some a =>
    by_cases ha : a = 0
    · subst ha
      simp [processRow, hs, hne, hmiss, hb, strTruthy_some, hbne, hparse,
        numTruthy_some, hpb, specAdjustedPrice]
    · have hab : (a != 0) = true := by simpa using ha
      simp [processRow, hs, hne, hmiss, hb, strTruthy_some, hbne, hparse,
        numTruthy_some, hpb, hab, specAdjustedPrice]

/-- Every `processRow` result carries provenance `'isbndb_bulk'` or
`'original'`. -/
theorem processRow_priceSource (row : CSVRow) (settings : ProcessingSettings)
    (m : PriceMap) :
    (processRow row settings m).priceSource = "isbndb_bulk" ∨
    (processRow row settings m).priceSource = "original" := by
  unfold processRow
  cases row.isbn with
  | none => right; rfl
  | some s0 =>
    simp only [Option.map_some']
    split
    · right; rfl
    · split
      · split
        · right; rfl
        · by_cases h0 : numTruthy (m.lookup (normalizeIsbn s0))
          · left; simp [h0]
          · right; simp [h0]
      · split
        · right; rfl
        · by_cases h0 : numTruthy (m.lookup (normalizeIsbn s0))
          · left; simp [h0]
          · right; simp [h0]

/-- Digit characters really are digits. -/
theorem digitChar_isDigit (n : ℕ) : (digitChar n).isDigit = true := by
  have h10 : n % 10 < 10 := Nat.mod_lt _ (by norm_num)
  have hall : ∀ m : Fin 10, (Char.ofNat (48 + (m : ℕ))).isDigit = true := by decide
  simpa [digitChar] using hall ⟨n % 10, h10⟩

/-- Digit characters are never the decimal dot. -/
theorem digitChar_ne_dot (n : ℕ) : digitChar n ≠ '.' := by
  intro h
  have := digitChar_isDigit n
  rw [h] at this
  exact absurd this (by decide)

/-- Every character produced by `natDigitsAux` is a digit. -/
theorem natDigitsAux_digits (fuel : ℕ) :
    ∀ n c, c ∈ natDigitsAux fuel n → c.isDigit = true := by
  induction fuel with
  | zero => intro n c hc; simp [natDigitsAux] at hc
  | succ fuel ih =>
    intro n c hc
    rw [natDigitsAux] at hc
    split at hc
    · rw [List.mem_singleton] at hc
      subst hc
      exact digitChar_isDigit n
    · rcases List.mem_append.mp hc with h | h
      · exact ih (n / 10) c h
      · rw [List.mem_singleton] at h
        subst h
        exact digitChar_isDigit _

/-- Every character of `natDigits n` is a digit. -/
theorem natDigits_digits (n : ℕ) : ∀ c ∈ natDigits n, c.isDigit = true :=
  natDigitsAux_digits (n + 1) n

/-- Every `toFixed2` rendering has two-decimal format. -/
theorem toFixed2_format (q : ℚ) : twoDecimalFormat (toFixed2 q) := by
  have habs : ∀ r : ℚ, ∃ a x y, toFixed2Abs r = String.mk a ++ "." ++ String.mk [x, y] ∧
      (∀ c ∈ a, c.isDigit = true) ∧ x.isDigit = true ∧ y.isDigit = true := by
    intro r
    refine ⟨natDigits ((⌊r * 100 + 1/2⌋).toNat / 100),
      digitChar ((⌊r * 100 + 1/2⌋).toNat / 10 % 10),
      digitChar ((⌊r * 100 + 1/2⌋).toNat % 10), rfl,
      natDigits_digits _, digitChar_isDigit _, digitChar_isDigit _⟩
  rw [toFixed2]
  split
  · obtain ⟨a, x, y, heq, ha, hx, hy⟩ := habs (-q)
    refine ⟨"-" ++ String.mk a, x, y, ?_, hx, hy, ?_⟩
    · rw [heq]
      simp [String.append_assoc]
    · intro hmem
      rw [String.data_append] at hmem
      rcases List.mem_append.mp hmem with h | h
      · exact absurd h (by decide)
      · have := ha '.' h
        exact absurd this (by decide)
  · obtain ⟨a, x, y, heq, ha, hx, hy⟩ := habs q
    refine ⟨String.mk a, x, y, heq, hx, hy, ?_⟩
    intro hmem
    have := ha '.' hmem
    exact absurd this (by decide)

/-- The loop's emitted rows are the accumulator followed by
`rowOutputs`; in particular they do not depend on the job-status
store. -/
theorem rowLoop_rowsOut (settings : ProcessingSettings) (pm : PriceMap)
    (statusOk rowFail : ℕ → Bool) :
    ∀ rows i st, (rowLoop settings pm statusOk rowFail i rows st).rowsOut =
      st.rowsOut ++ rowOutputs settings pm rowFail i rows := by
  intro rows
  induction rows with
  | nil => intro i st; simp [rowLoop, rowOutputs]
  | cons row rest ih =>
    intro i st
    rw [rowLoop, rowOutputs]
    by_cases hf : rowFail i
    · simp only [hf, if_true]
      rw [ih]
      simp
    · simp only [hf, if_false, Bool.false_eq_true]
      rw [ih]
      simp

/-- `rowOutputs` preserves the row count. -/
theorem rowOutputs_length (settings : ProcessingSettings) (pm : PriceMap)
    (rowFail : ℕ → Bool) :
    ∀ rows i, (rowOutputs settings pm rowFail i rows).length = rows.length := by
  intro rows
  induction rows with
  | nil => intro i; rfl
  | cons row rest ih => intro i; simp [rowOutputs, ih]

/-- A failing position yields exactly the fallback row. -/
theorem rowOutputs_getD_fail (settings : ProcessingSettings) (pm : PriceMap)
    (rowFail : ℕ → Bool) :
    ∀ rows i k, k < rows.length → rowFail (i + k) = true →
      (rowOutputs settings pm rowFail i rows).getD k dummyProcessed =
        errorFallbackRow (rows.getD k dummyRow) := by
  intro rows
  induction rows with
  | nil => intro i k hk; simp at hk
  | cons row rest ih =>
    intro i k hk hf
    cases k with
    | zero =>
      simp only [Nat.add_zero] at hf
      simp [rowOutputs, hf]
    | succ k =>
      have hk' : k < rest.length := by simpa using hk
      have hf' : rowFail (i + 1 + k) = true := by
        have : i + 1 + k = i + (k + 1) := by omega
        rw [this]; exact hf
      simp only [rowOutputs, List.getD_cons_succ]
      exact ih (i + 1) k hk' hf'

/-- Every emitted row carries provenance `'isbndb_bulk'` or
`'original'`. -/
theorem rowOutputs_mem_priceSource (settings : ProcessingSettings)
    (pm : PriceMap) (rowFail : ℕ → Bool) :
    ∀ rows i r, r ∈ rowOutputs settings pm rowFail i rows →
      r.priceSource = "isbndb_bulk" ∨ r.priceSource = "original" := by
  intro rows
  induction rows with
  | nil => intro i r hr; simp [rowOutputs] at hr
  | cons row rest ih =>
    intro i r hr
    rw [rowOutputs] at hr
    rcases List.mem_cons.mp hr with h | h
    · subst h
      by_cases hf : rowFail i
      · right; simp [hf, errorFallbackRow]
      · simp only [hf, if_false, Bool.false_eq_true]
        exact processRow_priceSource row settings pm
    · exact ih (i + 1) r h

/-- Characterization of the controller's outcome: the quota-exceeded
error exactly when the admission check trips, the emitted rows
otherwise. -/
theorem processFile_outcome (rows : List CSVRow) (settings : ProcessingSettings)
    (cache : String → Option ℚ) (oracle : ℕ → FetchResult)
    (ledgerOk rowFail statusOk : ℕ → Bool) (usage : ℕ) :
    (processFile rows settings cache oracle ledgerOk rowFail statusOk usage).outcome =
      if DAILY_LIMIT < usage + ceilDiv100 (uniqueIsbnsOf rows).length then
        Except.error (JobError.quotaExceeded usage (ceilDiv100 (uniqueIsbnsOf rows).length))
      else Except.ok (rowOutputs settings
        (buildPriceMap (uniqueIsbnsOf rows) cache oracle ledgerOk).priceMap
        rowFail 0 rows) := by
  rw [processFile]
  by_cases hc : DAILY_LIMIT < usage + ceilDiv100 (uniqueIsbnsOf rows).length
  · simp only [hc, if_true]
  · simp only [hc, if_false]
    rw [rowLoop_rowsOut]
    simp

/-- Characterization of the controller's resolver trace. -/
theorem processFile_trace (rows : List CSVRow) (settings : ProcessingSettings)
    (cache : String → Option ℚ) (oracle : ℕ → FetchResult)
    (ledgerOk rowFail statusOk : ℕ → Bool) (usage : ℕ) :
    (processFile rows settings cache oracle ledgerOk rowFail statusOk usage).trace =
      if DAILY_LIMIT < usage + ceilDiv100 (uniqueIsbnsOf rows).length then []
      else (buildPriceMap (uniqueIsbnsOf rows) cache oracle ledgerOk).trace := by
  rw [processFile]
  by_cases hc : DAILY_LIMIT < usage + ceilDiv100 (uniqueIsbnsOf rows).length
  · simp only [hc, if_true]
  · simp only [hc, if_false]

/-- Characterization of the controller's ledger increments. -/
theorem processFile_increments (rows : List CSVRow) (settings : ProcessingSettings)
    (cache : String → Option ℚ) (oracle : ℕ → FetchResult)
    (ledgerOk rowFail statusOk : ℕ → Bool) (usage : ℕ) :
    (processFile rows settings cache oracle ledgerOk rowFail statusOk usage).increments =
      if DAILY_LIMIT < usage + ceilDiv100 (uniqueIsbnsOf rows).length then 0
      else (buildPriceMap (uniqueIsbnsOf rows) cache oracle ledgerOk).increments := by
  rw [processFile]
  by_cases hc : DAILY_LIMIT < usage + ceilDiv100 (uniqueIsbnsOf rows).length
  · simp only [hc, if_true]
  · simp only [hc, if_false]

/-- C4: for every row with a found candidate price (resolved from the
price map, or the original base price when the map misses), the emitted
`calculatedPrice` is the candidate plus the adjustment when present,
then rounded strictly upward to the next whole currency unit exactly
when `priceRounding` is set, rendered with exactly two decimal
places. -/
theorem c4_price_formula (row : CSVRow) (settings : ProcessingSettings)
    (m : PriceMap) (s0 b : String) (v p : ℚ)
    (hs : row.isbn = some s0) (hne : (normalizeIsbn s0).isEmpty = false) :
    (m.lookup (normalizeIsbn s0) = some v → v ≠ 0 →
      (processRow row settings m).calculatedPrice =
        toFixed2 (specAdjustedPrice settings v) ∧
      (processRow row settings m).processingStatus = "success" ∧
      twoDecimalFormat (processRow row settings m).calculatedPrice) ∧
    (numTruthy (m.lookup (normalizeIsbn s0)) = false → row.basePrice = some b →
      parseFloatQ b = some p → p ≠ 0 →
      (processRow row settings m).calculatedPrice =
        toFixed2 (specAdjustedPrice settings p) ∧
      (processRow row settings m).processingStatus = "success" ∧
      twoDecimalFormat (processRow row settings m).calculatedPrice) := by
  constructor
  · intro hv hv0
    rw [processRow_map_hit row settings m s0 v hs hne hv hv0]
    exact ⟨rfl, rfl, toFixed2_format _⟩
  · intro hmiss hb hparse hp0
    rw [processRow_fallback row settings m s0 b p hs hne hmiss hb hparse hp0]
    exact ⟨rfl, rfl, toFixed2_format _⟩

/-- Witness for C4, the spec's section-8 scenario: resolved price
22.30, adjustment −5.00, rounding on, gives 18.00. -/
theorem c4_price_formula_witness :
    (processRow sampleRow scenarioSettings scenarioMap).calculatedPrice = "18.00" ∧
    (processRow sampleRow scenarioSettings scenarioMap).processingStatus = "success" := by
  have hv : scenarioMap.lookup (normalizeIsbn "11-1111 1111") = some (223/10) := rfl
  have h := (c4_price_formula sampleRow scenarioSettings scenarioMap
    "11-1111 1111" "10.00" (223/10) (223/10) rfl (by decide)).1 hv (by norm_num)
  obtain ⟨h1, h2, -⟩ := h
  refine ⟨?_, h2⟩
  rw [h1]
  have e0 : specAdjustedPrice scenarioSettings (223/10) = ((18 : ℤ) : ℚ) := by
    rw [specAdjustedPrice]
    simp only [scenarioSettings, if_pos]
    norm_num
    rw [ceil_eq_int (173/10) 18 (by norm_num) (by norm_num)]
    norm_num
  rw [e0]
  rw [toFixed2_eval ((18 : ℤ) : ℚ) 1800 (by norm_num)
    (floor_eq_nat _ _ (by norm_num) (by norm_num))]
  decide

/-- Rendering of an adjusted below-zero price: a minus-signed string
when rounding is off; rounded up to "0.00" whenever rounding is on and
the adjusted value lies in (−1, 0). -/
theorem toFixed2_adjusted_neg (settings : ProcessingSettings) (q a : ℚ)
    (hadj : settings.priceAdjustment = some a) (hneg : q + a < 0) :
    (settings.priceRounding = false →
      ∃ t, toFixed2 (specAdjustedPrice settings q) = "-" ++ t) ∧
    (settings.priceRounding = true → -1 < q + a →
      toFixed2 (specAdjustedPrice settings q) = "0.00") := by
  constructor
  · intro hr
    have e0 : specAdjustedPrice settings q = q + a := by
      rw [specAdjustedPrice, hadj, hr]
      simp
    rw [e0, toFixed2, if_pos hneg]
    exact ⟨toFixed2Abs (-(q + a)), rfl⟩
  · intro hr hgt
    have hc : ⌈q + a⌉ = (0 : ℤ) :=
      ceil_eq_int (q + a) 0 (by push_cast; linarith) (by push_cast; linarith)
    have e0 : specAdjustedPrice settings q = ((0 : ℤ) : ℚ) := by
      rw [specAdjustedPrice, hadj, hr]
      simp [hc]
    rw [e0]
    rw [toFixed2_eval ((0 : ℤ) : ℚ) 0 (by norm_num)
      (floor_eq_nat _ _ (by norm_num) (by norm_num))]
    decide

/-- C10 (amended): for every row whose candidate price — whether
resolved from the price map or parsed from the original base price —
plus a negative adjustment is below zero, the row is still emitted with
`processingStatus = 'success'` and no lower clamp at zero is applied:
the emitted price is the formatted adjusted (and, when rounding is on,
ceiling-rounded) value, a minus-signed string whenever rounding is off,
but "0.00" whenever rounding is on and the adjusted price lies in
(−1, 0). -/
theorem c10_no_clamp (row : CSVRow) (settings : ProcessingSettings)
    (m : PriceMap) (s0 b : String) (v p a : ℚ)
    (hs : row.isbn = some s0) (hne : (normalizeIsbn s0).isEmpty = false)
    (hadj : settings.priceAdjustment = some a) :
    (m.lookup (normalizeIsbn s0) = some v → v ≠ 0 → v + a < 0 →
      (processRow row settings m).processingStatus = "success" ∧
      (processRow row settings m).calculatedPrice =
        toFixed2 (specAdjustedPrice settings v) ∧
      (settings.priceRounding = false →
        ∃ t, (processRow row settings m).calculatedPrice = "-" ++ t) ∧
      (settings.priceRounding = true → -1 < v + a →
        (processRow row settings m).calculatedPrice = "0.00")) ∧
    (numTruthy (m.lookup (normalizeIsbn s0)) = false → row.basePrice = some b →
      parseFloatQ b = some p → p ≠ 0 → p + a < 0 →
      (processRow row settings m).processingStatus = "success" ∧
      (processRow row settings m).calculatedPrice =
        toFixed2 (specAdjustedPrice settings p) ∧
      (settings.priceRounding = false →
        ∃ t, (processRow row settings m).calculatedPrice = "-" ++ t) ∧
      (settings.priceRounding = true → -1 < p + a →
        (processRow row settings m).calculatedPrice = "0.00")) := by
  constructor
  · intro hv hv0 hneg
    rw [processRow_map_hit row settings m s0 v hs hne hv hv0]
    have h := toFixed2_adjusted_neg settings v a hadj hneg
    exact ⟨rfl, rfl, h.1, h.2⟩
  · intro hmiss hb hparse hp0 hneg
    rw [processRow_fallback row settings m s0 b p hs hne hmiss hb hparse hp0]
    have h := toFixed2_adjusted_neg settings p a hadj hneg
    exact ⟨rfl, rfl, h.1, h.2⟩

/-- Witness for C10, exercising both candidate sources: a resolved
price 2.00 with adjustment −5.00 and no rounding yields a minus-signed
success row, and an original base price 10.00 with adjustment −10.50
and rounding on yields "0.00". -/
theorem c10_no_clamp_witness :
    ((processRow sampleRow
      { priceRounding := false, priceAdjustment := some (-5) }
      [("1111111111", 2)]).processingStatus = "success" ∧
    ∃ t, (processRow sampleRow
      { priceRounding := false, priceAdjustment := some (-5) }
      [("1111111111", 2)]).calculatedPrice = "-" ++ t) ∧
    (processRow sampleRow
      { priceRounding := true, priceAdjustment := some (-21/2) }
      []).processingStatus = "success" ∧
    (processRow sampleRow
      { priceRounding := true, priceAdjustment := some (-21/2) }
      []).calculatedPrice = "0.00" := by
  have hparse : parseFloatQ "10.00" = some ((1000 : ℚ) / 10 ^ 2) := by
    have hp : parseFloatParts "10.00" = some (false, 1000, 2) := by decide
    rw [parseFloatQ, hp]
    simp [ratOfParts]
  have h1 := (c10_no_clamp sampleRow
    { priceRounding := false, priceAdjustment := some (-5) }
    [("1111111111", 2)] "11-1111 1111" "10.00" 2 ((1000 : ℚ) / 10 ^ 2) (-5)
    rfl (by decide) rfl).1 rfl (by norm_num) (by norm_num)
  have h2 := (c10_no_clamp sampleRow
    { priceRounding := true, priceAdjustment := some (-21/2) }
    [] "11-1111 1111" "10.00" 2 ((1000 : ℚ) / 10 ^ 2) (-21/2)
    rfl (by decide) rfl).2 rfl rfl hparse (by norm_num) (by norm_num)
  exact ⟨⟨h1.1, h1.2.2.1 rfl⟩, h2.1, h2.2.2.2 rfl (by norm_num)⟩

/-- Counterexample to C10 as stated: candidate 2.00 plus adjustment
−2.50 is −0.50, below zero, yet with rounding on the emitted price is
"0.00" — not a negative price, because `Math.ceil` pulls values in
(−1, 0) up to zero. -/
theorem c10_counterexample :
    (2 : ℚ) + (-5/2) < 0 ∧
    (processRow sampleRow
      { priceRounding := true, priceAdjustment := some (-5/2) }
      [("1111111111", 2)]).processingStatus = "success" ∧
    (processRow sampleRow
      { priceRounding := true, priceAdjustment := some (-5/2) }
      [("1111111111", 2)]).calculatedPrice = "0.00" := by
  refine ⟨by norm_num, ?_⟩
  rw [processRow_map_hit sampleRow
    { priceRounding := true, priceAdjustment := some (-5/2) }
    [("1111111111", 2)] "11-1111 1111" 2 rfl (by decide) rfl (by norm_num)]
  refine ⟨rfl, ?_⟩
  have e0 : specAdjustedPrice
      { priceRounding := true, priceAdjustment := some (-5/2) } (2 : ℚ) =
      ((0 : ℤ) : ℚ) := by
    rw [specAdjustedPrice]
    norm_num
  rw [e0]
  rw [toFixed2_eval ((0 : ℤ) : ℚ) 0 (by norm_num)
    (floor_eq_nat _ _ (by norm_num) (by norm_num))]
  decide

/-- C8 (amended): when a row's normalized ISBN has a truthy entry in
the price map, the transformer uses the mapped price as the candidate
with provenance `'isbndb_bulk'` (the source's literal for a resolved
price), even when a parsable original base price is also present; the
original base price becomes the candidate only when the ISBN is absent
from the map. -/
theorem c8_resolved_wins (row : CSVRow) (settings : ProcessingSettings)
    (m : PriceMap) (s0 b : String) (v p : ℚ)
    (hs : row.isbn = some s0) (hne : (normalizeIsbn s0).isEmpty = false)
    (hb : row.basePrice = some b)
    (hparse : parseFloatQ b = some p) (hp0 : p ≠ 0) :
    (m.lookup (normalizeIsbn s0) = some v → v ≠ 0 →
      (processRow row settings m).priceSource = "isbndb_bulk" ∧
      (processRow row settings m).calculatedPrice =
        toFixed2 (specAdjustedPrice settings v)) ∧
    (m.lookup (normalizeIsbn s0) = none →
      (processRow row settings m).priceSource = "original" ∧
      (processRow row settings m).calculatedPrice =
        toFixed2 (specAdjustedPrice settings p)) := by
  constructor
  · intro hv hv0
    rw [processRow_map_hit row settings m s0 v hs hne hv hv0]
    exact ⟨rfl, rfl⟩
  · intro hnone
    have hmiss : numTruthy (m.lookup (normalizeIsbn s0)) = false := by
      rw [hnone]; rfl
    rw [processRow_fallback row settings m s0 b p hs hne hmiss hb hparse hp0]
    exact ⟨rfl, rfl⟩

/-- Witness for C8: ISBN resolved to 22.30 in the map while the row
also carries base price "10.00"; the mapped price wins with provenance
`'isbndb_bulk'`. -/
theorem c8_resolved_wins_witness :
    (processRow sampleRow scenarioSettings scenarioMap).priceSource = "isbndb_bulk" ∧
    (processRow sampleRow scenarioSettings scenarioMap).calculatedPrice =
      toFixed2 (specAdjustedPrice scenarioSettings (223/10)) := by
  have hparse : parseFloatQ "10.00" = some ((1000 : ℚ) / 10 ^ 2) := by
    have hp : parseFloatParts "10.00" = some (false, 1000, 2) := by decide
    rw [parseFloatQ, hp]
    simp [ratOfParts]
  exact (c8_resolved_wins sampleRow scenarioSettings scenarioMap
    "11-1111 1111" "10.00" (223/10) ((1000 : ℚ) / 10 ^ 2) rfl (by decide) rfl
    hparse (by norm_num)).1 rfl (by norm_num)

/-- Counterexample to C8 as stated: a row whose ISBN is in the map and
which carries a parsable base price is emitted with the source literal
`'isbndb_bulk'`, never `'resolved'`. -/
theorem c8_counterexample :
    (processRow { isbn := some "978-0-306-40615-7", basePrice := some "12.50" }
      { priceRounding := false, priceAdjustment := none }
      [("9780306406157", 7)]).priceSource = "isbndb_bulk" ∧
    "isbndb_bulk" ≠ "resolved" := by
  constructor
  · rw [processRow_map_hit
      { isbn := some "978-0-306-40615-7", basePrice := some "12.50" }
      { priceRounding := false, priceAdjustment := none }
      [("9780306406157", 7)] "978-0-306-40615-7" 7 rfl (by decide) rfl
      (by norm_num)]
  · decide

/-- C3 (amended): every row the pipeline emits carries `priceSource`
`'isbndb_bulk'` or `'original'` (the source's literals; the spec's
`resolved`/`none` names are not emitted), and a row whose normalized
ISBN has a truthy entry in the PriceMap is emitted with
`priceSource = 'isbndb_bulk'`. -/
theorem c3_price_source (rows : List CSVRow) (settings : ProcessingSettings)
    (cache : String → Option ℚ) (oracle : ℕ → FetchResult)
    (ledgerOk rowFail statusOk : ℕ → Bool) (usage : ℕ)
    (out : List ProcessedRow) (row : CSVRow) (m : PriceMap) (s0 : String) (v : ℚ)
    (hok : (processFile rows settings cache oracle ledgerOk rowFail statusOk
      usage).outcome = Except.ok out)
    (hs : row.isbn = some s0) (hne : (normalizeIsbn s0).isEmpty = false)
    (hv : m.lookup (normalizeIsbn s0) = some v) (hv0 : v ≠ 0) :
    (out.all fun r => r.priceSource == "isbndb_bulk" ||
      r.priceSource == "original") = true ∧
    (processRow row settings m).priceSource = "isbndb_bulk" := by
  constructor
  · rw [processFile_outcome] at hok
    split at hok
    · exact absurd hok (by simp)
    · injection hok with h
      subst h
      rw [List.all_eq_true]
      intro r hr
      rcases rowOutputs_mem_priceSource settings _ rowFail rows 0 r hr with h | h <;>
        simp [h]
  · rw [processRow_map_hit row settings m s0 v hs hne hv hv0]

/-- Witness for C3 on a one-row job. -/
theorem c3_price_source_witness :
    ((rowOutputs scenarioSettings
      (buildPriceMap (uniqueIsbnsOf [sampleRow]) cacheNone oracleOkEmpty
        allTrue).priceMap allFalse 0 [sampleRow]).all fun r =>
      r.priceSource == "isbndb_bulk" || r.priceSource == "original") = true ∧
    (processRow sampleRow scenarioSettings scenarioMap).priceSource = "isbndb_bulk" := by
  refine c3_price_source [sampleRow] scenarioSettings cacheNone oracleOkEmpty
    allTrue allFalse allTrue 0 _ sampleRow scenarioMap "11-1111 1111" (223/10)
    ?_ rfl (by decide) rfl (by norm_num)
  rw [processFile_outcome]
  rw [if_neg (by decide)]

/-- Counterexample to C3 as stated: a row resolved through the price
map is emitted with `priceSource = 'isbndb_bulk'`, which is none of the
claimed literals `'resolved'`, `'original'`, `'none'`. -/
theorem c3_counterexample :
    (processRow { isbn := some "1234567890123", basePrice := none }
      { priceRounding := false, priceAdjustment := none }
      [("1234567890123", 3)]).priceSource = "isbndb_bulk" ∧
    ¬((processRow { isbn := some "1234567890123", basePrice := none }
        { priceRounding := false, priceAdjustment := none }
        [("1234567890123", 3)]).priceSource = "resolved" ∨
      (processRow { isbn := some "1234567890123", basePrice := none }
        { priceRounding := false, priceAdjustment := none }
        [("1234567890123", 3)]).priceSource = "original" ∨
      (processRow { isbn := some "1234567890123", basePrice := none }
        { priceRounding := false, priceAdjustment := none }
        [("1234567890123", 3)]).priceSource = "none") := by
  rw [processRow_map_hit { isbn := some "1234567890123", basePrice := none }
    { priceRounding := false, priceAdjustment := none }
    [("1234567890123", 3)] "1234567890123" 3 rfl (by decide) rfl (by norm_num)]
  exact ⟨rfl, by decide⟩

/-- C5: the pipeline emits exactly one output row per parsed input row
on every run that produces output — with no assumption on how many rows
fail, zero included; additionally, any failing row is emitted as the
fallback row with `processingStatus = 'error'` and the row's original
base price as its calculated price. -/
theorem c5_row_count_invariant (rows : List CSVRow) (settings : ProcessingSettings)
    (cache : String → Option ℚ) (oracle : ℕ → FetchResult)
    (ledgerOk rowFail statusOk : ℕ → Bool) (usage : ℕ)
    (out : List ProcessedRow) (k : ℕ)
    (hok : (processFile rows settings cache oracle ledgerOk rowFail statusOk
      usage).outcome = Except.ok out) :
    out.length = rows.length ∧
    (k < rows.length → rowFail k = true →
      out.getD k dummyProcessed = errorFallbackRow (rows.getD k dummyRow) ∧
      (out.getD k dummyProcessed).processingStatus = "error" ∧
      (out.getD k dummyProcessed).calculatedPrice =
        (rows.getD k dummyRow).basePrice.getD "") := by
  rw [processFile_outcome] at hok
  split at hok
  · exact absurd hok (by simp)
  · injection hok with h
    subst h
    refine ⟨rowOutputs_length settings _ rowFail rows 0, ?_⟩
    intro hk hf
    have hget := rowOutputs_getD_fail settings
      (buildPriceMap (uniqueIsbnsOf rows) cache oracle ledgerOk).priceMap
      rowFail rows 0 k hk (by simpa using hf)
    refine ⟨hget, ?_, ?_⟩
    · rw [hget]; rfl
    · rw [hget]; rfl

/-- Witness for C5: a zero-failure run keeps the row count, and a run
whose single row fails keeps it too while emitting the error fallback. -/
theorem c5_row_count_invariant_witness :
    (rowOutputs scenarioSettings
      (buildPriceMap (uniqueIsbnsOf [sampleRow]) cacheNone oracleOkEmpty
        allTrue).priceMap allFalse 0 [sampleRow]).length = 1 ∧
    (rowOutputs scenarioSettings
      (buildPriceMap (uniqueIsbnsOf [sampleRow]) cacheNone oracleOkEmpty
        allTrue).priceMap allTrue 0 [sampleRow]).length = 1 ∧
    ((rowOutputs scenarioSettings
      (buildPriceMap (uniqueIsbnsOf [sampleRow]) cacheNone oracleOkEmpty
        allTrue).priceMap allTrue 0 [sampleRow]).getD 0
      dummyProcessed).processingStatus = "error" := by
  have h0 := c5_row_count_invariant [sampleRow] scenarioSettings cacheNone
    oracleOkEmpty allTrue allFalse allTrue 0 _ 0
    (by rw [processFile_outcome]; rw [if_neg (by decide)])
  have h1 := c5_row_count_invariant [sampleRow] scenarioSettings cacheNone
    oracleOkEmpty allTrue allTrue allTrue 0 _ 0
    (by rw [processFile_outcome]; rw [if_neg (by decide)])
  exact ⟨h0.1, h1.1, (h1.2 (by decide) rfl).2.1⟩

/-- C9: job-status store failures are caught and ignored — the
pipeline's outcome, resolver trace and ledger increments are identical
under any two status-write oracles; an unavailable status store never
aborts the run and never changes the produced rows. -/
theorem c9_status_store_isolated (rows : List CSVRow)
    (settings : ProcessingSettings) (cache : String → Option ℚ)
    (oracle : ℕ → FetchResult) (ledgerOk rowFail : ℕ → Bool) (usage : ℕ)
    (statusOk₁ statusOk₂ : ℕ → Bool) :
    (processFile rows settings cache oracle ledgerOk rowFail statusOk₁
      usage).outcome =
      (processFile rows settings cache oracle ledgerOk rowFail statusOk₂
        usage).outcome ∧
    (processFile rows settings cache oracle ledgerOk rowFail statusOk₁
      usage).trace =
      (processFile rows settings cache oracle ledgerOk rowFail statusOk₂
        usage).trace ∧
    (processFile rows settings cache oracle ledgerOk rowFail statusOk₁
      usage).increments =
      (processFile rows settings cache oracle ledgerOk rowFail statusOk₂
        usage).increments := by
  refine ⟨?_, ?_, ?_⟩
  · rw [processFile_outcome, processFile_outcome]
  · rw [processFile_trace, processFile_trace]
  · rw [processFile_increments, processFile_increments]

/-- The batch loop appends `batchTrace` to the accumulated trace. -/
theorem runBatches_trace (oracle : ℕ → FetchResult) (ledgerOk : ℕ → Bool) :
    ∀ bs i st, (runBatches oracle ledgerOk i bs st).trace =
      st.trace ++ batchTrace oracle i bs := by
  intro bs
  induction bs with
  | nil => intro i st; simp [runBatches, batchTrace]
  | cons b rest ih =>
    intro i st
    rw [runBatches, batchTrace]
    cases hfb : fetchBooks (oracle i) with
    | some books => simp [ih, List.append_assoc]
    | none => simp [ih, List.append_assoc]

/-- The batch loop adds `countLedgerIncs` to the accumulated
increment count. -/
theorem runBatches_increments (oracle : ℕ → FetchResult) (ledgerOk : ℕ → Bool) :
    ∀ bs i st, (runBatches oracle ledgerOk i bs st).increments =
      st.increments + countLedgerIncs oracle ledgerOk i bs := by
  intro bs
  induction bs with
  | nil => intro i st; simp [runBatches, countLedgerIncs]
  | cons b rest ih =>
    intro i st
    rw [runBatches, countLedgerIncs]
    cases hfb : fetchBooks (oracle i) with
    | some books =>
      by_cases hl : ledgerOk i <;> simp [ih, hl] <;> omega
    | none => simp [ih]

/-- The resolver's trace is the batch trace over the chunked cache
misses. -/
theorem buildPriceMap_trace (isbns : List String) (cache : String → Option ℚ)
    (oracle : ℕ → FetchResult) (ledgerOk : ℕ → Bool) :
    (buildPriceMap isbns cache oracle ledgerOk).trace =
      batchTrace oracle 0 (chunksOf (specCacheMisses cache isbns)) := by
  rw [buildPriceMap]
  by_cases he : (cacheProbe cache isbns).2.isEmpty
  · have he' : (cacheProbe cache isbns).2 = [] := by
      cases h : (cacheProbe cache isbns).2
      · rfl
      · rw [h] at he; simp at he
    simp only [he, if_true, specCacheMisses, he']
    rw [chunksOf]
    simp [batchTrace]
  · simp only [he, if_false, Bool.false_eq_true, specCacheMisses]
    rw [runBatches_trace]
    rfl

/-- The resolver's increment count is the ledger-landed count over the
chunked cache misses. -/
theorem buildPriceMap_increments (isbns : List String)
    (cache : String → Option ℚ) (oracle : ℕ → FetchResult)
    (ledgerOk : ℕ → Bool) :
    (buildPriceMap isbns cache oracle ledgerOk).increments =
      countLedgerIncs oracle ledgerOk 0
        (chunksOf (specCacheMisses cache isbns)) := by
  rw [buildPriceMap]
  by_cases he : (cacheProbe cache isbns).2.isEmpty
  · have he' : (cacheProbe cache isbns).2 = [] := by
      cases h : (cacheProbe cache isbns).2
      · rfl
      · rw [h] at he; simp at he
    simp only [he, if_true, specCacheMisses, he']
    rw [chunksOf]
    simp [countLedgerIncs]
  · simp only [he, if_false, Bool.false_eq_true, specCacheMisses]
    rw [runBatches_increments]
    simp

/-- Chunking produces exactly `ceil(len / 100)` batches. -/
theorem chunksOf_length (l : List String) :
    (chunksOf l).length = ceilDiv100 l.length := by
  induction l using chunksOf.induct with
  | case1 l hl =>
    have : l = [] := by
      cases h : l
      · rfl
      · rw [h] at hl; simp at hl
    subst this
    rw [chunksOf]
    simp [ceilDiv100, BULK_SIZE]
  | case2 l hl ih =>
    rw [chunksOf]
    simp only [hl, if_false, Bool.false_eq_true, List.length_cons]
    rw [ih]
    have hpos : 0 < l.length := by
      cases h : l
      · rw [h] at hl; simp at hl
      · simp only [List.length_cons]
        omega
    simp only [ceilDiv100, BULK_SIZE, List.length_drop]
    omega

/-- At most one successful call per batch. -/
theorem countSuccessfulCalls_le (oracle : ℕ → FetchResult) :
    ∀ bs i, countSuccessfulCalls oracle i bs ≤ bs.length := by
  intro bs
  induction bs with
  | nil => intro i; simp [countSuccessfulCalls]
  | cons b rest ih =>
    intro i
    rw [countSuccessfulCalls]
    have := ih (i + 1)
    by_cases h : (fetchBooks (oracle i)).isSome <;> simp [h] <;> omega

/-- When every ledger write succeeds, the landed count is exactly the
successful-call count. -/
theorem countLedgerIncs_all_ok (oracle : ℕ → FetchResult) (ledgerOk : ℕ → Bool)
    (hok : ∀ i, ledgerOk i = true) :
    ∀ bs i, countLedgerIncs oracle ledgerOk i bs =
      countSuccessfulCalls oracle i bs := by
  intro bs
  induction bs with
  | nil => intro i; rfl
  | cons b rest ih =>
    intro i
    rw [countLedgerIncs, countSuccessfulCalls, ih (i + 1)]
    cases hfb : fetchBooks (oracle i) with
    | some books => simp [hok i, hfb]
    | none => simp [hfb]

/-- Requests count distributes over trace concatenation. -/
theorem countRequests_append (a b : List Event) :
    countRequests (a ++ b) = countRequests a + countRequests b := by
  simp [countRequests, List.filter_append]

/-- A single fetch emits exactly one request, whatever the outcome. -/
theorem countRequests_fetchEvents (batch : List String) (r : FetchResult) :
    countRequests (fetchEvents batch r) = 1 := by
  cases r <;> simp [fetchEvents, backoffEvents, countRequests]

/-- The batch loop issues exactly one request per batch, regardless of
which batches fail. -/
theorem countRequests_batchTrace (oracle : ℕ → FetchResult) :
    ∀ bs i, countRequests (batchTrace oracle i bs) = bs.length := by
  intro bs
  induction bs with
  | nil => intro i; simp [batchTrace, countRequests]
  | cons b rest ih =>
    intro i
    rw [batchTrace, countRequests_append, countRequests_append,
      countRequests_fetchEvents, ih (i + 1)]
    have hmid : countRequests (match fetchBooks (oracle i) with
        | some _ => if rest.isEmpty then [] else [Event.delay RATE_LIMIT_DELAY]
        | none => []) = 0 := by
      cases hfb : fetchBooks (oracle i) with
      | some books =>
        by_cases hr : rest.isEmpty <;> simp [hr, countRequests]
      | none => simp [countRequests]
    rw [hmid]
    simp only [List.length_cons]
    omega

/-- An always-missing cache misses every ISBN, in order. -/
theorem specCacheMisses_cacheNone (l : List String) :
    specCacheMisses cacheNone l = l := by
  rw [specCacheMisses]
  induction l with
  | nil => rfl
  | cons x xs ih => simp only [cacheProbe, cacheNone, ih]

/-- Backoff events are never requests. -/
theorem backoffEvents_nonrequest (r : FetchResult) :
    ∀ e ∈ backoffEvents r, isRequest e = false := by
  cases r <;> simp [backoffEvents, isRequest]

/-- Consuming a run of non-request events only grows the current
accumulator. -/
theorem gapsAux_delays (tr : List Event) :
    ∀ ds g, (∀ e ∈ ds, isRequest e = false) →
      gapsAux (ds ++ tr) (some g) = gapsAux tr (some (ds.reverse ++ g)) := by
  intro ds
  induction ds with
  | nil => intro g h; simp
  | cons e es ih =>
    intro g h
    have he : isRequest e = false := h e (by simp)
    simp only [List.cons_append, gapsAux, he, Bool.false_eq_true, if_false,
      List.append_eq]
    rw [ih (e :: g) (fun x hx => h x (by simp [hx]))]
    congr 1
    simp

/-- Worker form of the batch-trace gap decomposition. -/
theorem gapsAux_batchTrace (oracle : ℕ → FetchResult) :
    ∀ bs i g, gapsAux (batchTrace oracle i bs) (some g) =
      g.reverse :: gapList oracle i bs := by
  intro bs
  induction bs with
  | nil => intro i g; simp [batchTrace, gapsAux, gapList]
  | cons b rest ih =>
    intro i g
    have hnr : ∀ e ∈ backoffEvents (oracle i) ++
        (match fetchBooks (oracle i) with
         | some _ => if rest.isEmpty then [] else [Event.delay RATE_LIMIT_DELAY]
         | none => []), isRequest e = false := by
      intro e he
      rcases List.mem_append.mp he with h | h
      · exact backoffEvents_nonrequest _ e h
      · revert h
        cases hfb : fetchBooks (oracle i) with
        | some books =>
          by_cases hr : rest.isEmpty
          · simp [hr]
          · simp only [hr, Bool.false_eq_true, if_false, List.mem_singleton]
            intro h
            subst h
            rfl
        | none => simp
    rw [batchTrace, fetchEvents]
    simp only [List.cons_append, gapsAux, isRequest, if_true, List.append_eq]
    rw [gapsAux_delays _ _ [] hnr]
    rw [ih]
    rw [gapList]
    congr 2
    simp

/-- The gaps of a batch trace are exactly `gapList`. -/
theorem gaps_batchTrace (oracle : ℕ → FetchResult) :
    ∀ bs i, gaps (batchTrace oracle i bs) = gapList oracle i bs := by
  intro bs i
  cases bs with
  | nil => rfl
  | cons b rest =>
    have hnr : ∀ e ∈ backoffEvents (oracle i) ++
        (match fetchBooks (oracle i) with
         | some _ => if rest.isEmpty then [] else [Event.delay RATE_LIMIT_DELAY]
         | none => []), isRequest e = false := by
      intro e he
      rcases List.mem_append.mp he with h | h
      · exact backoffEvents_nonrequest _ e h
      · revert h
        cases hfb : fetchBooks (oracle i) with
        | some books =>
          by_cases hr : rest.isEmpty
          · simp [hr]
          · simp only [hr, Bool.false_eq_true, if_false, List.mem_singleton]
            intro h
            subst h
            rfl
        | none => simp
    rw [gaps, batchTrace, fetchEvents]
    simp only [List.cons_append, gapsAux, isRequest, if_true, List.append_eq]
    rw [gapsAux_delays _ _ [] hnr]
    rw [gapsAux_batchTrace]
    rw [gapList]
    congr 1
    simp

/-- One gap per batch. -/
theorem gapList_length (oracle : ℕ → FetchResult) :
    ∀ bs i, (gapList oracle i bs).length = bs.length := by
  intro bs
  induction bs with
  | nil => intro i; rfl
  | cons b rest ih => intro i; simp [gapList, ih]

/-- The contents of the `k`-th inter-request gap. -/
theorem gapList_getD (oracle : ℕ → FetchResult) :
    ∀ bs i k, k < bs.length →
      (gapList oracle i bs).getD k [] =
        backoffEvents (oracle (i + k)) ++
          (match fetchBooks (oracle (i + k)) with
           | some _ => if k + 1 = bs.length then [] else [Event.delay RATE_LIMIT_DELAY]
           | none => []) := by
  intro bs
  induction bs with
  | nil => intro i k hk; simp at hk
  | cons b rest ih =>
    intro i k hk
    cases k with
    | zero =>
      have hiff : (rest.isEmpty = true) ↔ (0 + 1 = (b :: rest).length) := by
        cases rest <;> simp
      simp only [gapList, List.getD_cons_zero, Nat.add_zero, hiff]
    | succ k =>
      have hk' : k < rest.length := by simpa using hk
      simp only [gapList, List.getD_cons_succ]
      rw [ih (i + 1) k hk']
      have e1 : i + 1 + k = i + (k + 1) := by omega
      have hiff : (k + 1 = rest.length) ↔ (k + 1 + 1 = (b :: rest).length) := by
        simp only [List.length_cons]
        omega
      rw [e1]
      simp only [hiff]

/-- A single batch for a single ISBN. -/
theorem chunksOf_singleton (s : String) : chunksOf [s] = [[s]] := by
  rw [chunksOf]
  simp only [List.isEmpty_cons, Bool.false_eq_true, if_false]
  rw [chunksOf]
  simp [BULK_SIZE]

/-- 101 identical misses split into a batch of 100 and a batch of 1. -/
theorem chunksOf_replicate101 (s : String) :
    chunksOf (List.replicate 101 s) = [List.replicate 100 s, List.replicate 1 s] := by
  rw [chunksOf]
  have h1 : (List.replicate 101 s).isEmpty = false := by simp
  rw [h1]
  simp only [Bool.false_eq_true, if_false, BULK_SIZE]
  rw [List.take_replicate, List.drop_replicate]
  have h2 : (100 : ℕ) ⊓ 101 = 100 := by norm_num
  have h3 : (101 : ℕ) - 100 = 1 := by norm_num
  rw [h2, h3]
  congr 1
  rw [chunksOf]
  have h4 : (List.replicate 1 s).isEmpty = false := by simp
  rw [h4]
  simp only [Bool.false_eq_true, if_false, BULK_SIZE]
  rw [List.take_replicate, List.drop_replicate]
  have h5 : (100 : ℕ) ⊓ 1 = 1 := by norm_num
  have h6 : (1 : ℕ) - 100 = 0 := by norm_num
  rw [h5, h6]
  simp only [List.replicate_zero]
  rw [chunksOf]
  simp

/-- C1 (amended): the admission check uses
`estimatedCalls = ceil(uniqueIsbns / 100)` computed over all unique
normalized ISBNs before the cache probe (not over the cache misses),
and the run fails with the quota-exceeded error — dispatching no batch
and recording no usage — exactly when today's usage plus that estimate
exceeds the 5,000-call budget. -/
theorem c1_quota_admission (rows : List CSVRow) (settings : ProcessingSettings)
    (cache : String → Option ℚ) (oracle : ℕ → FetchResult)
    (ledgerOk rowFail statusOk : ℕ → Bool) (usage : ℕ) :
    ((processFile rows settings cache oracle ledgerOk rowFail statusOk
        usage).outcome =
      Except.error (JobError.quotaExceeded usage
        (ceilDiv100 (uniqueIsbnsOf rows).length)) ↔
      DAILY_LIMIT < usage + ceilDiv100 (uniqueIsbnsOf rows).length) ∧
    (DAILY_LIMIT < usage + ceilDiv100 (uniqueIsbnsOf rows).length →
      (processFile rows settings cache oracle ledgerOk rowFail statusOk
        usage).trace = [] ∧
      (processFile rows settings cache oracle ledgerOk rowFail statusOk
        usage).increments = 0) := by
  constructor
  · constructor
    · intro h
      by_contra hc
      rw [processFile_outcome, if_neg hc] at h
      exact Except.noConfusion h
    · intro hc
      rw [processFile_outcome, if_pos hc]
  · intro hc
    constructor
    · rw [processFile_trace, if_pos hc]
    · rw [processFile_increments, if_pos hc]

/-- Witness for C1: one uncached unique ISBN with usage already at the
budget trips the admission check and nothing is dispatched. -/
theorem c1_quota_admission_witness :
    (processFile [oneRow] plainSettings cacheNone oracleOkEmpty allTrue allFalse
      allTrue 5000).outcome =
      Except.error (JobError.quotaExceeded 5000
        (ceilDiv100 (uniqueIsbnsOf [oneRow]).length)) ∧
    (processFile [oneRow] plainSettings cacheNone oracleOkEmpty allTrue allFalse
      allTrue 5000).trace = [] := by
  have h := c1_quota_admission [oneRow] plainSettings cacheNone oracleOkEmpty
    allTrue allFalse allTrue 5000
  have hc : DAILY_LIMIT < 5000 + ceilDiv100 (uniqueIsbnsOf [oneRow]).length := by
    decide
  exact ⟨h.1.mpr hc, (h.2 hc).1⟩

/-- Counterexample to C1 as stated: with the only unique ISBN already
cached there are zero cache misses, so the claim's
`usage + ceil(misses / 100)` does not exceed the budget — yet the code
fails the job, because it estimates from all unique ISBNs before
probing the cache. -/
theorem c1_counterexample :
    (processFile [oneRow] plainSettings cacheHit oracleOkEmpty allTrue allFalse
      allTrue 5000).outcome = Except.error (JobError.quotaExceeded 5000 1) ∧
    5000 + ceilDiv100 (specCacheMisses cacheHit (uniqueIsbnsOf [oneRow])).length ≤
      DAILY_LIMIT := by
  constructor
  · rw [processFile_outcome, if_pos (by decide)]
    have h1 : ceilDiv100 (uniqueIsbnsOf [oneRow]).length = 1 := by decide
    rw [h1]
  · decide

/-- C2 (amended): every HTTP-level batch failure — transient,
rate-limited, or an authorization failure such as 401 — is caught by
the batch loop, which proceeds to issue every remaining batch, and the
job still completes; no HTTP-level batch failure aborts the job. -/
theorem c2_batch_failures_skipped (rows : List CSVRow)
    (settings : ProcessingSettings) (cache : String → Option ℚ)
    (oracle : ℕ → FetchResult) (ledgerOk rowFail statusOk : ℕ → Bool)
    (usage : ℕ)
    (hq : ¬ DAILY_LIMIT < usage + ceilDiv100 (uniqueIsbnsOf rows).length) :
    (processFile rows settings cache oracle ledgerOk rowFail statusOk
      usage).outcome =
      Except.ok (rowOutputs settings
        (buildPriceMap (uniqueIsbnsOf rows) cache oracle ledgerOk).priceMap
        rowFail 0 rows) ∧
    countRequests (processFile rows settings cache oracle ledgerOk rowFail
      statusOk usage).trace =
      (chunksOf (specCacheMisses cache (uniqueIsbnsOf rows))).length := by
  constructor
  · rw [processFile_outcome, if_neg hq]
  · rw [processFile_trace, if_neg hq, buildPriceMap_trace,
      countRequests_batchTrace]

/-- Witness for C2: a provider answering HTTP 401 on every batch. -/
theorem c2_batch_failures_skipped_witness :
    (processFile [oneRow] plainSettings cacheNone oracle401 allTrue allFalse
      allTrue 0).outcome =
      Except.ok (rowOutputs plainSettings
        (buildPriceMap (uniqueIsbnsOf [oneRow]) cacheNone oracle401
          allTrue).priceMap allFalse 0 [oneRow]) ∧
    countRequests (processFile [oneRow] plainSettings cacheNone oracle401
      allTrue allFalse allTrue 0).trace =
      (chunksOf (specCacheMisses cacheNone (uniqueIsbnsOf [oneRow]))).length :=
  c2_batch_failures_skipped [oneRow] plainSettings cacheNone oracle401 allTrue
    allFalse allTrue 0 (by decide)

/-- Counterexample to C2 as stated: the provider answers HTTP 401 (an
authorization failure), the request is issued, and the job still
completes — the 401 is caught by the batch loop's catch-all and is not
fatal. -/
theorem c2_counterexample :
    oracle401 0 = FetchResult.httpError 401 ∧
    (processFile [oneRow] plainSettings cacheNone oracle401 allTrue allFalse
      allTrue 0).outcome.isOk = true ∧
    countRequests (processFile [oneRow] plainSettings cacheNone oracle401
      allTrue allFalse allTrue 0).trace = 1 := by
  refine ⟨rfl, ?_, ?_⟩
  · rw [processFile_outcome, if_neg (by decide)]
    rfl
  · rw [processFile_trace, if_neg (by decide), buildPriceMap_trace,
      countRequests_batchTrace]
    have h1 : uniqueIsbnsOf [oneRow] = ["1111111111"] := by decide
    rw [h1, specCacheMisses_cacheNone, chunksOf_singleton]
    rfl

/-- C6 (amended): when the ledger store is healthy, the daily count
increases by exactly the number of batch calls that complete
successfully — a batch whose HTTP call fails is issued but never
counted — and never by more than `ceil(uniqueMisses / 100)`. -/
theorem c6_quota_ledger (isbns : List String) (cache : String → Option ℚ)
    (oracle : ℕ → FetchResult) (ledgerOk : ℕ → Bool)
    (hok : ∀ i, ledgerOk i = true) :
    (buildPriceMap isbns cache oracle ledgerOk).increments =
      countSuccessfulCalls oracle 0 (chunksOf (specCacheMisses cache isbns)) ∧
    (buildPriceMap isbns cache oracle ledgerOk).increments ≤
      ceilDiv100 (specCacheMisses cache isbns).length := by
  have h1 : (buildPriceMap isbns cache oracle ledgerOk).increments =
      countSuccessfulCalls oracle 0 (chunksOf (specCacheMisses cache isbns)) := by
    rw [buildPriceMap_increments, countLedgerIncs_all_ok oracle ledgerOk hok]
  refine ⟨h1, ?_⟩
  rw [h1, ← chunksOf_length]
  exact countSuccessfulCalls_le oracle _ 0

/-- Witness for C6: one uncached ISBN, one successful call. -/
theorem c6_quota_ledger_witness :
    (buildPriceMap ["1111111111"] cacheNone oracleOkEmpty allTrue).increments =
      countSuccessfulCalls oracleOkEmpty 0
        (chunksOf (specCacheMisses cacheNone ["1111111111"])) ∧
    (buildPriceMap ["1111111111"] cacheNone oracleOkEmpty allTrue).increments ≤
      ceilDiv100 (specCacheMisses cacheNone ["1111111111"]).length :=
  c6_quota_ledger ["1111111111"] cacheNone oracleOkEmpty allTrue (fun _ => rfl)

/-- Counterexample to C6 as stated: one batch call is actually issued
(the request appears in the trace) but it fails with HTTP 500, so the
ledger is not incremented at all — the count does not increase by the
number of calls issued. -/
theorem c6_counterexample :
    countRequests (buildPriceMap ["1111111111"] cacheNone oracle500
      allTrue).trace = 1 ∧
    (buildPriceMap ["1111111111"] cacheNone oracle500 allTrue).increments = 0 := by
  have hch : chunksOf (specCacheMisses cacheNone ["1111111111"]) = [["1111111111"]] := by
    rw [specCacheMisses_cacheNone, chunksOf_singleton]
  constructor
  · rw [buildPriceMap_trace, hch]
    decide
  · rw [buildPriceMap_increments, hch]
    decide

/-- C7 (amended): the pacing delay (1100 ms ≥ 1 s) separates a
successfully processed batch from the next request; no pacing delay
ever follows the last batch; a batch that fails with a non-429 error is
followed immediately by the next request with no delay at all (a 429
instead inserts only its 2000 ms backoff). -/
theorem c7_pacing (isbns : List String) (cache : String → Option ℚ)
    (oracle : ℕ → FetchResult) (ledgerOk : ℕ → Bool) (i : ℕ) :
    1000 ≤ RATE_LIMIT_DELAY ∧
    (gaps (buildPriceMap isbns cache oracle ledgerOk).trace).length =
      (chunksOf (specCacheMisses cache isbns)).length ∧
    (i + 1 < (chunksOf (specCacheMisses cache isbns)).length →
      (fetchBooks (oracle i)).isSome = true →
      Event.delay RATE_LIMIT_DELAY ∈
        (gaps (buildPriceMap isbns cache oracle ledgerOk).trace).getD i []) ∧
    (i + 1 = (chunksOf (specCacheMisses cache isbns)).length →
      Event.delay RATE_LIMIT_DELAY ∉
        (gaps (buildPriceMap isbns cache oracle ledgerOk).trace).getD i []) ∧
    (i + 1 < (chunksOf (specCacheMisses cache isbns)).length →
      fetchBooks (oracle i) = none → oracle i ≠ FetchResult.rateLimited →
      (gaps (buildPriceMap isbns cache oracle ledgerOk).trace).getD i [] = []) := by
  have hg : gaps (buildPriceMap isbns cache oracle ledgerOk).trace =
      gapList oracle 0 (chunksOf (specCacheMisses cache isbns)) := by
    rw [buildPriceMap_trace, gaps_batchTrace]
  refine ⟨by norm_num [RATE_LIMIT_DELAY], ?_, ?_, ?_, ?_⟩
  · rw [hg, gapList_length]
  · intro hlt hsucc
    rw [hg, gapList_getD oracle _ 0 i (by omega)]
    simp only [Nat.zero_add]
    obtain ⟨books, hb⟩ := Option.isSome_iff_exists.mp hsucc
    rw [hb, if_neg (by omega)]
    exact List.mem_append.mpr (Or.inr (by simp))
  · intro hlast
    rw [hg, gapList_getD oracle _ 0 i (by omega)]
    simp only [Nat.zero_add]
    intro hmem
    rcases List.mem_append.mp hmem with h | h
    · revert h
      cases oracle i <;> simp [backoffEvents, RATE_LIMIT_DELAY]
    · revert h
      cases hfb : fetchBooks (oracle i) with
      | none => simp
      | some books =>
        rw [if_pos hlast]
        simp
  · intro hlt hnone hnrl
    rw [hg, gapList_getD oracle _ 0 i (by omega)]
    simp only [Nat.zero_add]
    rw [hnone]
    simp only [List.append_nil]
    cases ho : oracle i with
    | ok books => rw [ho] at hnone; exact absurd hnone (by simp [fetchBooks])
    | notFound => rw [ho] at hnone; exact absurd hnone (by simp [fetchBooks])
    | rateLimited => exact absurd ho hnrl
    | httpError s => rfl

/-- Witness for C7: 101 uncached ISBNs form two batches; the first
batch succeeds, and the pacing delay appears in the gap between the two
requests. -/
theorem c7_pacing_witness :
    0 + 1 < (chunksOf (specCacheMisses cacheNone
      (List.replicate 101 "1111111111"))).length ∧
    Event.delay RATE_LIMIT_DELAY ∈
      (gaps (buildPriceMap (List.replicate 101 "1111111111") cacheNone
        oracleOkEmpty allTrue).trace).getD 0 [] := by
  have hlen : (chunksOf (specCacheMisses cacheNone
      (List.replicate 101 "1111111111"))).length = 2 := by
    rw [specCacheMisses_cacheNone, chunksOf_replicate101]
    rfl
  have hlt : 0 + 1 < (chunksOf (specCacheMisses cacheNone
      (List.replicate 101 "1111111111"))).length := by
    rw [hlen]
    omega
  exact ⟨hlt, ((c7_pacing (List.replicate 101 "1111111111") cacheNone
    oracleOkEmpty allTrue 0).2.2.1) hlt rfl⟩

/-- Counterexample to C7 as stated: a two-batch run whose first batch
fails with HTTP 500 — the trace is two back-to-back requests with no
delay of any kind between them. -/
theorem c7_counterexample :
    (chunksOf (specCacheMisses cacheNone
      (List.replicate 101 "1111111111"))).length = 2 ∧
    (buildPriceMap (List.replicate 101 "1111111111") cacheNone failFirstOracle
      allTrue).trace =
      [Event.request (List.replicate 100 "1111111111"),
       Event.request (List.replicate 1 "1111111111")] := by
  have hch : chunksOf (specCacheMisses cacheNone
      (List.replicate 101 "1111111111")) =
      [List.replicate 100 "1111111111", List.replicate 1 "1111111111"] := by
    rw [specCacheMisses_cacheNone, chunksOf_replicate101]
  constructor
  · rw [hch]
    rfl
  · rw [buildPriceMap_trace, hch]
    rfl

end Libra
